import Mathlib

/-!
Verification development for the Smart Device firmware
(`smart-devices/SmartDevice/src`): the binary message codec
(`message.cpp`), the cooperative task scheduler, the device loop,
and the watchdog (`SmartDevice.cpp`).

The embedding is shallow.  A `Message` is the fixed 258-byte buffer
`buf` of `message.cpp` viewed through its layout: `buf[0]` is the type
byte (`typ`), `buf[1]` the declared payload length (`len`), and
`buf[2+j]` the payload region (`data j`, 256 slots); the checksum of a
finished message lives at payload slot `len`.  Machine bytes are `Nat`
values; `param_map_t`/`interval_t` are 16-bit values assembled from
little-endian byte pairs exactly as the AVR `memcpy` calls do.
-/

set_option autoImplicit false
set_option maxRecDepth 100000

namespace SmartDev

/-- Payload-region bytes of a message: 256 slots after the two header
bytes.  `upd f i v` is a single byte store, `buf[2+i] = v`. -/
def upd (f : Nat → Nat) (i v : Nat) : Nat → Nat :=
  fun j => if j = i then v else f j

/-- Source `memcpy(buf + 2 + i, src, src.length)`: store a byte list at
consecutive payload slots starting at `i`. -/
def writeData : (Nat → Nat) → Nat → List Nat → (Nat → Nat)
  | f, _, [] => f
  | f, i, b :: bs => writeData (upd f i b) (i + 1) bs

/-- A Smart Device message (`class Message`, `message.hpp`): the
fixed-capacity buffer, split into the type byte, the declared payload
length byte, and the payload region.  `data` holds all 256 payload
slots, declared or not; reads never pass the declared length. -/
structure Message where
  typ : Nat
  len : Nat
  data : Nat → Nat

/-- Little-endian bytes of a `uint16_t` value, as `memcpy` of two bytes
lays them out on AVR. -/
def le2 (n : Nat) : List Nat := [n % 256, n / 256 % 256]

/-- Little-endian bytes of a `uint64_t` value (the `DeviceUID.random`
field). -/
def le8 (n : Nat) : List Nat := (List.range 8).map (fun j => n / 256 ^ j % 256)

/-- Reassemble a little-endian byte list into a value, as `memcpy` into
an integer field does. -/
def fromLE (bs : List Nat) : Nat := bs.foldr (fun b acc => b + 256 * acc) 0

namespace Message

/-- Source `PAYLOAD_MAX_SIZE` (`message.hpp`): 255 bytes. -/
def PAYLOAD_MAX_SIZE : Nat := 255

/-- Source `MAX_PARAMETERS` (`message.hpp`): `8 * sizeof(param_map_t)` = 16. -/
def MAX_PARAMETERS : Nat := 16

/-- Byte `j` of the whole message buffer: type, length, then payload. -/
def bufByte (m : Message) : Nat → Nat :=
  fun j => if j = 0 then m.typ else if j = 1 then m.len else m.data (j - 2)

/-- Source `Message::compute_checksum`: XOR of every buffer byte except the
checksum slot, i.e. of the first `2 + len` bytes. -/
def compute_checksum (m : Message) : Nat :=
  (List.range (2 + m.len)).foldl (fun a j => a ^^^ bufByte m j) 0

/-- Source `Message::verify_checksum`: compare the stored checksum byte
(payload slot `len`) against the recomputed one.  Pure: it reads the
message and mutates nothing. -/
def verify_checksum (m : Message) : Bool :=
  m.data m.len == compute_checksum m

/-- Source `Message::set_payload_length`: fails (returning `false`, modelled
`none`) without mutation if the length exceeds `PAYLOAD_MAX_SIZE`. -/
def set_payload_length (m : Message) (n : Nat) : Option Message :=
  if n ≤ PAYLOAD_MAX_SIZE then some { m with len := n } else none

/-- Source `Message::append`: grow the payload by the given bytes.  Returns the
number of bytes appended together with the new message; on capacity
overflow it returns `0` and the message untouched (the C code returns
before any store). -/
def append (m : Message) (bs : List Nat) : Nat × Message :=
  match set_payload_length m (m.len + bs.length) with
  | none => (0, m)
  | some m1 => (bs.length, { m1 with data := writeData m.data m.len bs })

/-- Source `Message::read` return value: the requested size, or `0` when
`offset + size` passes the declared payload length. -/
def readCount (m : Message) (off sz : Nat) : Nat :=
  if off + sz > m.len then 0 else sz

/-- Bytes `[off, off+sz)` of the payload region. -/
def readBytes (m : Message) (off sz : Nat) : List Nat :=
  (List.range sz).map (fun j => m.data (off + j))

/-- The `read_check` macro for a non-null integral destination: succeed
iff `Message::read` returned nonzero, handing back the `memcpy`-ed
little-endian value. -/
def readLE (m : Message) (off sz : Nat) : Option Nat :=
  if off + sz > m.len ∨ sz = 0 then none else some (fromLE (readBytes m off sz))

/-- Source `Message::finish_message`: write the type byte, then store the
recomputed checksum at the end of the declared payload. -/
def finish_message (m : Message) (t : Nat) : Message :=
  let m1 : Message := { m with typ := t }
  { m1 with data := upd m1.data m1.len (compute_checksum m1) }

/-- The `append_check` macro: abort the build (`none`) when `append`
returns zero. -/
def appendCheck (om : Option Message) (bs : List Nat) : Option Message :=
  om.bind fun m =>
    let r := append m bs
    if r.1 = 0 then none else some r.2

/-- A device parameter table slot (`Parameter`): `none` models a null
`base` pointer; `some bs` a backing span whose current memory holds the
bytes `bs` (so `size = bs.length`). -/
abbrev Param := Option (List Nat)

/-- The 16-entry parameter table referenced by the codec. -/
abbrev Table := List Param

/-- Source `Message::append_params`: append the present map, then the raw bytes
of each set bit's parameter in ascending bit order; a slot with a null
base is silently skipped though its bit stays set in the map. -/
def append_params (m : Message) (present : Nat) (table : Table) : Option Message :=
  (List.range MAX_PARAMETERS).foldl
    (fun om i =>
      om.bind fun mm =>
        if present.testBit i then
          match table.getD i none with
          | none => some mm
          | some bs => appendCheck (some mm) bs
        else some mm)
    (appendCheck (some m) (le2 present))

/-- Message type bytes (`enum MessageType`). -/
def PING : Nat := 0x10
def SUB_REQ : Nat := 0x11
def SUB_RES : Nat := 0x12
def DEV_READ : Nat := 0x13
def DEV_WRITE : Nat := 0x14
def DEV_DATA : Nat := 0x15
def DEV_DISABLE : Nat := 0x16
def HB_REQ : Nat := 0x17
def HB_RES : Nat := 0x18
def ERROR : Nat := 0xFF

/-- Error code bytes (`enum ErrorCode`). -/
def INVALID_TYPE : Nat := 0xFB
def BUFFER_OVERFLOW : Nat := 0xFC
def UNEXPECTED_DELIMETER : Nat := 0xFD
def BAD_CHECKSUM : Nat := 0xFE
def GENERIC_ERROR : Nat := 0xFF

/-- Source `DeviceUID`: device id (u16), protocol year (u8), random nonce (u64). -/
structure DeviceUID where
  device_id : Nat
  year : Nat
  random : Nat

/-- Source `Message::make_ping`. -/
def make_ping (m : Message) : Option Message :=
  some (finish_message { m with len := 0 } PING)

/-- Source `Message::make_sub_req`. -/
def make_sub_req (m : Message) (params interval : Nat) : Option Message :=
  (appendCheck (appendCheck (some { m with len := 0 }) (le2 params)) (le2 interval)).map
    (finish_message · SUB_REQ)

/-- Source `Message::make_sub_res`. -/
def make_sub_res (m : Message) (params interval : Nat) (uid : DeviceUID) : Option Message :=
  (appendCheck (appendCheck (appendCheck (appendCheck (appendCheck
      (some { m with len := 0 })
      (le2 params)) (le2 interval)) (le2 uid.device_id)) [uid.year % 256]) (le8 uid.random)).map
    (finish_message · SUB_RES)

/-- Source `Message::make_dev_read`. -/
def make_dev_read (m : Message) (params : Nat) : Option Message :=
  (appendCheck (some { m with len := 0 }) (le2 params)).map (finish_message · DEV_READ)

/-- Source `Message::make_dev_write`. -/
def make_dev_write (m : Message) (present : Nat) (table : Table) : Option Message :=
  (append_params { m with len := 0 } present table).map (finish_message · DEV_WRITE)

/-- Source `Message::make_dev_data`. -/
def make_dev_data (m : Message) (present : Nat) (table : Table) : Option Message :=
  (append_params { m with len := 0 } present table).map (finish_message · DEV_DATA)

/-- Source `Message::make_dev_disable`. -/
def make_dev_disable (m : Message) : Option Message :=
  some (finish_message { m with len := 0 } DEV_DISABLE)

/-- Source `Message::make_hb_req`. -/
def make_hb_req (m : Message) (hb_id : Nat) : Option Message :=
  (appendCheck (some { m with len := 0 }) [hb_id % 256]).map (finish_message · HB_REQ)

/-- Source `Message::make_hb_res`. -/
def make_hb_res (m : Message) (hb_id : Nat) : Option Message :=
  (appendCheck (some { m with len := 0 }) [hb_id % 256]).map (finish_message · HB_RES)

/-- Source `Message::make_error`. -/
def make_error (m : Message) (error : Nat) : Option Message :=
  (appendCheck (some { m with len := 0 }) [error % 256]).map (finish_message · ERROR)

/-- The output cells the `read_<kind>` parsers write through their
pointer arguments.  Tracking them as explicit state lets a theorem say
a failed parse left an output untouched. -/
structure Cells where
  pmap : Nat
  interval : Nat
  devId : Nat
  year : Nat
  rnd : Nat
  hb : Nat
  err : Nat
deriving DecidableEq

/-- All-zero output cells, handy for concrete runs. -/
def Cells.zero : Cells := ⟨0, 0, 0, 0, 0, 0, 0⟩

/-- Source `Message::read_sub_req`: type check, read the present map then the
interval at fixed offsets, and require the offset to land exactly on the
declared payload length. -/
def read_sub_req (m : Message) (c : Cells) : Bool × Cells :=
  if m.typ ≠ SUB_REQ then (false, c) else
  match readLE m 0 2 with
  | none => (false, c)
  | some p =>
    let c1 : Cells := { c with pmap := p }
    match readLE m 2 2 with
    | none => (false, c1)
    | some iv => (decide (4 = m.len), { c1 with interval := iv })

/-- Source `Message::read_sub_res`. -/
def read_sub_res (m : Message) (c : Cells) : Bool × Cells :=
  if m.typ ≠ SUB_RES then (false, c) else
  match readLE m 0 2 with
  | none => (false, c)
  | some p =>
    let c1 : Cells := { c with pmap := p }
    match readLE m 2 2 with
    | none => (false, c1)
    | some iv =>
      let c2 : Cells := { c1 with interval := iv }
      match readLE m 4 2 with
      | none => (false, c2)
      | some d =>
        let c3 : Cells := { c2 with devId := d }
        match readLE m 6 1 with
        | none => (false, c3)
        | some y =>
          let c4 : Cells := { c3 with year := y }
          match readLE m 7 8 with
          | none => (false, c4)
          | some r => (decide (15 = m.len), { c4 with rnd := r })

/-- Source `Message::read_dev_read`. -/
def read_dev_read (m : Message) (c : Cells) : Bool × Cells :=
  if m.typ ≠ DEV_READ then (false, c) else
  match readLE m 0 2 with
  | none => (false, c)
  | some p => (decide (2 = m.len), { c with pmap := p })

/-- Source `Message::read_hb_req`. -/
def read_hb_req (m : Message) (c : Cells) : Bool × Cells :=
  if m.typ ≠ HB_REQ then (false, c) else
  match readLE m 0 1 with
  | none => (false, c)
  | some v => (decide (1 = m.len), { c with hb := v })

/-- Source `Message::read_hb_res`. -/
def read_hb_res (m : Message) (c : Cells) : Bool × Cells :=
  if m.typ ≠ HB_RES then (false, c) else
  match readLE m 0 1 with
  | none => (false, c)
  | some v => (decide (1 = m.len), { c with hb := v })

/-- Source `Message::read_error`. -/
def read_error (m : Message) (c : Cells) : Bool × Cells :=
  if m.typ ≠ ERROR then (false, c) else
  match readLE m 0 1 with
  | none => (false, c)
  | some v => (decide (1 = m.len), { c with err := v })

/-- The parameter loop of `Message::read_params`: for each set bit of
the decoded map, fail on a null backing span (`read_check`'s null
test), otherwise read that parameter's bytes into its span and advance
the offset.  Returns the final offset on success together with the
updated table; a failure keeps the spans already written. -/
def readParamsGo (m : Message) (p : Nat) : List Nat → Nat → Table → Option Nat × Table
  | [], off, tb => (some off, tb)
  | i :: is, off, tb =>
    if p.testBit i then
      match tb.getD i none with
      | none => (none, tb)
      | some bs =>
        if off + bs.length > m.len ∨ bs.length = 0 then (none, tb)
        else readParamsGo m p is (off + bs.length) (tb.set i (some (readBytes m off bs.length)))
    else readParamsGo m p is off tb

/-- Source `Message::read_params`: read the present map, run the parameter
loop, and require the consumed offset to equal the declared payload
length. -/
def read_params (m : Message) (c : Cells) (table : Table) : Bool × Cells × Table :=
  match readLE m 0 2 with
  | none => (false, c, table)
  | some p =>
    let c1 : Cells := { c with pmap := p }
    match readParamsGo m p (List.range MAX_PARAMETERS) 2 table with
    | (none, tb) => (false, c1, tb)
    | (some off, tb) => (decide (off = m.len), c1, tb)

/-- Source `Message::read_dev_write`: type check then shared `read_params`. -/
def read_dev_write (m : Message) (c : Cells) (table : Table) : Bool × Cells × Table :=
  if m.typ ≠ DEV_WRITE then (false, c, table) else read_params m c table

/-- Source `Message::read_dev_data`: type check then shared `read_params`. -/
def read_dev_data (m : Message) (c : Cells) (table : Table) : Bool × Cells × Table :=
  if m.typ ≠ DEV_DATA then (false, c, table) else read_params m c table

/-- Size of the backing span at a table slot; a null slot counts 0. -/
def sizeAt (table : Table) (i : Nat) : Nat :=
  match table.getD i none with
  | none => 0
  | some bs => bs.length

/-- Combined span bytes of the set bits among the given indices: a set
bit with a backing span contributes its size, a null slot contributes
nothing (it is skipped during serialization). -/
def sumSizes (present : Nat) (table : Table) : List Nat → Nat
  | [] => 0
  | i :: is => (if present.testBit i then sizeAt table i else 0) + sumSizes present table is

/-- Combined parameter bytes serialized for a present map. -/
def paramSizeSum (present : Nat) (table : Table) : Nat :=
  sumSizes present table (List.range MAX_PARAMETERS)

end Message

open Message

/-! Section: Device loop (`SmartDevice.cpp`)

The serial transport and COBS framing are external to `src/` (`cobs.h`
is not part of the sources); a successful `SerialHandler::send` of a
finished message is therefore observed as the message's decoded wire
bytes.  The buffer `serial_buf` has size `ENCODING_MAX_SIZE`, which by
construction fits the COBS encoding of any `Message`, so encoding a
real message never fails; `send(NULL)` transmits the hardcoded
`GENERIC_ERROR_MESSAGE` frame, whose decoded form is
`[0xFF, 0x01, 0xFF, 0x01]`. -/

/-- Decoded wire bytes of a finished message: type, payload length, the
declared payload, and the checksum byte (payload slot `len`). -/
def wireBytes (m : Message) : List Nat :=
  m.typ :: m.len :: (List.range (m.len + 1)).map m.data

/-- Decoded form of the hardcoded `GENERIC_ERROR_MESSAGE` fallback
frame `"\x05\xff\x01\xff\x01"`. -/
def genericErrorBytes : List Nat := [0xFF, 1, 0xFF, 1]

/-- Source `SerialHandler::send`: a non-null message goes out as its frame and
succeeds; a null argument (or an encoding failure, impossible for a
real message here) sends the generic error frame and fails. -/
def serialSend (out : Option Message) : Bool × List Nat :=
  match out with
  | some m => (true, wireBytes m)
  | none => (false, genericErrorBytes)

/-- Source `class Task` (`SmartDevice.cpp`): ready flag, last-fired timestamp
and interval, all in milliseconds.  Timestamps are the 32-bit
`unsigned long` values of `millis()`. -/
structure Task where
  ready : Bool
  last : Nat
  interval : Nat
deriving DecidableEq

/-- Modulus of the AVR `unsigned long` arithmetic on timestamps. -/
def U32 : Nat := 4294967296

/-- Source `Task::MAX_INTERVAL` (1000 ms). -/
def MAX_INTERVAL : Nat := 1000

/-- Source `Task::next`: `last + interval` in `unsigned long` arithmetic. -/
def Task.next (t : Task) : Nat := (t.last + t.interval) % U32

/-- Source `Task::clear_ready`: report and reset the ready flag. -/
def Task.clear_ready (t : Task) : Bool × Task :=
  (t.ready, { t with ready := false })

/-- The loop body of `Task::select`: fire due tasks (set `ready`, reset
`last` to `now`) and accumulate the minimum next-fire deadline. -/
def Task.selectGo (now : Nat) : List Task → Nat → Nat × List Task
  | [], stop => (stop, [])
  | t :: ts, stop =>
    let t1 := if t.next ≤ now then { t with last := now, ready := true } else t
    let r := Task.selectGo now ts (min stop t1.next)
    (r.1, t1 :: r.2)

/-- Source `Task::select`: deadline accumulation starts at
`now + MAX_INTERVAL`. -/
def Task.select (tasks : List Task) (now : Nat) : Nat × List Task :=
  Task.selectGo now tasks ((now + MAX_INTERVAL) % U32)

/-- Device-loop timing constants (`SmartDevice.h` / `SmartDevice.hpp`),
in milliseconds. -/
def MIN_TIMEOUT : Nat := 10
def MIN_SUB_INTERVAL : Nat := 40
def MAX_SUB_INTERVAL : Nat := 250
def DISABLE_INTERVAL : Nat := 1000
def HB_INTERVAL : Nat := 1000

/-- Source `SmartDeviceLoop::MIN_SERVE_INTERVAL` (`SmartDevice.hpp`): minimum
duration spent serving packets per loop iteration. -/
def MIN_SERVE_INTERVAL : Nat := 40

/-- Arduino's `constrain(x, a, b)` macro. -/
def constrain (x a b : Nat) : Nat :=
  if x < a then a else if x > b then b else x

/-- The external capability collaborator: `device_read` and
`device_write` (`param_map_t -> param_map_t`, 16-bit maps).
`device_disable` has no data, so a disable is reported as an event
flag. -/
structure Capability where
  read : Nat → Nat
  write : Nat → Nat

/-- The device-loop state owned by `SmartDevice`: the reusable message
buffer, the parameter table, the subscribed map, and the two scheduler
tasks. -/
structure DevState where
  msg : Message
  params : Message.Table
  subscription : Nat
  update : Task
  hb : Task
  uid : DeviceUID

/-- Source `SmartDevice::is_subscribed`: the update task has a nonzero
interval. -/
def is_subscribed (st : DevState) : Bool := st.update.interval ≠ 0

/-- Source `SmartDevice::set_subscription`: store the map the external read
capability actually read; a nonzero requested interval is clamped into
`[MIN_SUB_INTERVAL, MAX_SUB_INTERVAL]`, zero disables the
subscription. -/
def set_subscription (cap : Capability) (st : DevState) (subscription interval : Nat) :
    DevState :=
  { st with
    subscription := cap.read subscription
    update := { st.update with
      interval := if interval ≠ 0 then constrain interval MIN_SUB_INTERVAL MAX_SUB_INTERVAL
                  else interval } }

/-- One iteration of the fallback loop of `SmartDevice::send_data`:
for a set bit, `check_ok(success, make_dev_data(present, params) &&
send(msg))` — note the source passes `present` (the full map), not the
single-bit map it computes just above, so the oversized build repeats
and nothing is sent. -/
def sendDataStep (pres : Nat) (acc : Bool × DevState × List (List Nat)) (i : Nat) :
    Bool × DevState × List (List Nat) :=
  if pres.testBit i then
    match make_dev_data acc.2.1.msg pres acc.2.1.params with
    | some m1 => (acc.1, { acc.2.1 with msg := m1 }, acc.2.2 ++ [wireBytes m1])
    | none => (false, acc.2.1, acc.2.2)
  else acc

/-- Source `SmartDevice::send_data`: re-read the requested map, try one
DEV_DATA message for all of it.  If that build overflows, fall back to
the per-bit loop `sendDataStep`.  Failed builds leave a partial
unfinished buffer behind; it is never transmitted and the next build
resets the payload, so the prior `msg` is carried unchanged on
failure.  Returns overall success, the new state, and the frames
sent. -/
def send_data (cap : Capability) (st : DevState) (present : Nat) :
    Bool × DevState × List (List Nat) :=
  let pres := cap.read present
  match make_dev_data st.msg pres st.params with
  | some m1 => (true, { st with msg := m1 }, [wireBytes m1])
  | none =>
    (List.range Message.MAX_PARAMETERS).foldl (sendDataStep pres) (true, st, [])

/-- The dispatch switch of `SmartDevice::serve_once`, entered after a
message was received and decoded into `st.msg`.  Returns the new state,
the frames sent in response, and whether `device_disable` was
invoked. -/
def serveDispatch (cap : Capability) (st : DevState) : DevState × List (List Nat) × Bool :=
  if st.msg.typ = SUB_REQ then
    let r := read_sub_req st.msg Cells.zero
    let st1 := if r.1 then set_subscription cap st r.2.pmap r.2.interval else st
    -- fallthrough into the PING branch with the accumulated msg_ok
    match (if r.1 then make_sub_res st1.msg st1.subscription st1.update.interval st1.uid
           else none) with
    | some m1 => ({ st1 with msg := m1 }, [wireBytes m1], false)
    | none => (st1, [genericErrorBytes], false)
  else if st.msg.typ = PING then
    match make_sub_res st.msg st.subscription st.update.interval st.uid with
    | some m1 => ({ st with msg := m1 }, [wireBytes m1], false)
    | none => (st, [genericErrorBytes], false)
  else if st.msg.typ = DEV_WRITE then
    let r := read_dev_write st.msg Cells.zero st.params
    let st1 := { st with params := r.2.2 }
    if r.1 then
      let s := send_data cap st1 (cap.write r.2.1.pmap)
      if s.1 then (s.2.1, s.2.2, false)
      else (s.2.1, s.2.2 ++ [genericErrorBytes], false)
    else (st1, [genericErrorBytes], false)
  else if st.msg.typ = DEV_READ then
    let r := read_dev_read st.msg Cells.zero
    if r.1 then
      let s := send_data cap st r.2.pmap
      if s.1 then (s.2.1, s.2.2, false)
      else (s.2.1, s.2.2 ++ [genericErrorBytes], false)
    else (st, [genericErrorBytes], false)
  else if st.msg.typ = DEV_DISABLE then
    (st, [], true)
  else if st.msg.typ = HB_REQ then
    let r := read_hb_req st.msg Cells.zero
    match (if r.1 then make_hb_res st.msg r.2.hb else none) with
    | some m1 => ({ st with msg := m1 }, [wireBytes m1], false)
    | none => (st, [genericErrorBytes], false)
  else if st.msg.typ = HB_RES then
    let r := read_hb_res st.msg Cells.zero
    -- a successful parse falls through to the trailing send of `msg`
    if r.1 then (st, [wireBytes st.msg], false)
    else (st, [genericErrorBytes], false)
  else
    match make_error st.msg INVALID_TYPE with
    | some m1 => ({ st with msg := m1 }, [wireBytes m1], false)
    | none => (st, [genericErrorBytes], false)

/-- The scheduled phase of `SmartDevice::loop`: select over the
heartbeat task (always) and the update task (only while subscribed),
fire the due periodic sends, and return the `stop` deadline that the
subsequent `while (now < stop) serve_once(stop - now)` loop uses
unchanged. -/
def loopIter (cap : Capability) (st : DevState) (now : Nat) :
    DevState × List (List Nat) × Nat :=
  let sel := if is_subscribed st then Task.select [st.hb, st.update] now
             else Task.select [st.hb] now
  let stop := sel.1
  let st1 :=
    match sel.2 with
    | [h, u] => { st with hb := h, update := u }
    | [h] => { st with hb := h }
    | _ => st
  let hbFire := Task.clear_ready st1.hb
  let st2 := { st1 with hb := hbFire.2 }
  let out1 : List (List Nat) :=
    if hbFire.1 then
      match make_hb_req st2.msg 0xff with
      | some m1 => [wireBytes m1]
      | none => [genericErrorBytes]
    else []
  let st3 :=
    if hbFire.1 then
      match make_hb_req st2.msg 0xff with
      | some m1 => { st2 with msg := m1 }
      | none => st2
    else st2
  let upFire := Task.clear_ready st3.update
  let st4 := { st3 with update := upFire.2 }
  if upFire.1 then
    let s := send_data cap st4 st4.subscription
    if s.1 then (s.2.1, out1 ++ s.2.2, stop)
    else (s.2.1, out1 ++ s.2.2 ++ [genericErrorBytes], stop)
  else (st4, out1, stop)

/-! Section: Watchdog (`maybe_disable`, the `active` flag, and traces)

`volatile bool active` is set in `SerialHandler::recv` exactly when a
message decodes successfully (COBS ok, minimum size, checksum ok), and
is read/cleared by the timer-driven `SmartDevice::maybe_disable`.  A
trace interleaves receive attempts with watchdog ticks. -/

/-- Source `SmartDevice::maybe_disable`: invoke `device_disable` iff the
liveness flag is false on entry, then clear the flag unconditionally.
Returns (disable invoked, new flag). -/
def maybe_disable (active : Bool) : Bool × Bool := (!active, false)

/-- One interleaving event: a receive attempt (`valid` says whether the
message decoded successfully in `SerialHandler::recv`) or a watchdog
tick. -/
inductive Event where
  | recv (valid : Bool)
  | tick
deriving DecidableEq

/-- Flag effect of `SerialHandler::recv`: a successful decode sets
`active`; any failure (no bytes, framing error, short message, bad
checksum) leaves it alone. -/
def recvFlag (active : Bool) (valid : Bool) : Bool := active || valid

/-- Run a trace from a flag value: each receive updates the flag via
`recvFlag`; each tick runs `maybe_disable`, recording whether
`device_disable` was invoked. -/
def runWatchdog (a : Bool) : List Event → Bool × List Bool
  | [] => (a, [])
  | Event.recv v :: es => runWatchdog (recvFlag a v) es
  | Event.tick :: es =>
    let r := runWatchdog false es
    (r.1, (!a) :: r.2)

/-- Liveness-flag value after a trace. -/
def flagAfter (a : Bool) (es : List Event) : Bool := (runWatchdog a es).1

/-- The sequence of disable decisions made at the ticks of a trace. -/
def disables (a : Bool) (es : List Event) : List Bool := (runWatchdog a es).2

/-- Whether an event is a successfully decoded message. -/
def Event.isValid : Event → Bool
  | Event.recv v => v
  | Event.tick => false

/-! Section: Specification-side helpers and concrete instances -/

/-- The subscription mask the specification describes for immediate
DEV_READ/DEV_WRITE replies: clear every bit of `p` that the
subscription map `s` covers. -/
def maskOff (p s : Nat) : Nat := p ^^^ (p &&& s)

/-- A fresh message buffer, as the `SmartDevice` constructor builds it
(`msg(PING)`). -/
def ExM0 : Message := ⟨Message.PING, 0, fun _ => 0⟩

/-- Sixteen parameters of sixteen bytes each: their combined bytes
(2 + 256) exceed `PAYLOAD_MAX_SIZE`, so a single DEV_DATA build
overflows. -/
def ExTable16 : Message.Table := List.replicate 16 (some (List.replicate 16 0xAB))

/-- A capability whose read returns the requested map unchanged. -/
def ExCap : Capability := ⟨fun p => p, fun _ => 0⟩

/-- Device state holding the oversized table, no subscription. -/
def ExSt16 : DevState := ⟨ExM0, ExTable16, 0, ⟨false, 0, 0⟩, ⟨false, 0, 1000⟩, ⟨0, 0, 0⟩⟩

/-- One readable one-byte parameter at bit 0, the rest absent. -/
def ExTable1 : Message.Table := some [170] :: List.replicate 15 none

/-- A capability that can read only parameter 0. -/
def ExCapR : Capability := ⟨fun p => p &&& 1, fun _ => 0⟩

/-- A received DEV_READ message requesting parameter 0. -/
def ExMsgR : Message := (Message.make_dev_read ExM0 1).getD ExM0

/-- Device state with an active subscription covering parameter 0 that
just received `ExMsgR`. -/
def ExStR : DevState := ⟨ExMsgR, ExTable1, 1, ⟨false, 0, 40⟩, ⟨false, 0, 1000⟩, ⟨0x80, 1, 5⟩⟩

/-- Unsubscribed device state whose heartbeat task (interval 1000,
last fired at 0) is due at time 1000. -/
def ExSt4 : DevState := ⟨ExM0, ExTable1, 0, ⟨false, 0, 0⟩, ⟨false, 0, 1000⟩, ⟨0, 0, 0⟩⟩

/-- The scheduler example's three tasks, created at `now = 1000` with
intervals 600, 1100 and 800. -/
def ExTaskA : Task := ⟨false, 1000, 600⟩
def ExTaskB : Task := ⟨false, 1000, 1100⟩
def ExTaskC : Task := ⟨false, 1000, 800⟩

/-- A finished one-byte-payload message (`make_hb_req(0xff)`). -/
def ExM9 : Message := (Message.make_hb_req ExM0 255).getD ExM0

/-- A finished SUB_REQ message (`make_sub_req(5, 100)`). -/
def ExMS : Message := (Message.make_sub_req ExM0 5 100).getD ExM0

/-- A two-parameter table whose bit-1 slot has a null base. -/
def ExTable2 : Message.Table := [some [5], none] ++ List.replicate 14 (none : Message.Param)

/-- DEV_DATA built over `ExTable2` with both bits set: bit 1's span is
skipped during serialization though its bit stays set. -/
def ExM10 : Message := (Message.make_dev_data ExM0 3 ExTable2).getD ExM0

/-! Section: Theorems -/

open Message

/-- C6: `set_subscription` stores as the subscribed map exactly the
external read capability's result on the requested map, and sets the
update task's interval to 0 when the requested interval is 0, and
otherwise to the interval clamped into
`[MIN_SUB_INTERVAL, MAX_SUB_INTERVAL] = [40, 250]`; in particular a
requested interval of 1 maps to 40, 10000 maps to 250, and 0 disables
the subscription. -/
theorem c6_set_subscription (cap : Capability) (st : DevState) (m i : Nat) :
    (set_subscription cap st m i).subscription = cap.read m ∧
    (set_subscription cap st m i).update.interval
      = (if i = 0 then 0 else min MAX_SUB_INTERVAL (max MIN_SUB_INTERVAL i)) ∧
    (set_subscription cap st m 1).update.interval = 40 ∧
    (set_subscription cap st m 10000).update.interval = 250 ∧
    (set_subscription cap st m 0).update.interval = 0 ∧
    is_subscribed (set_subscription cap st m 0) = false := by
  refine ⟨rfl, ?_, rfl, rfl, rfl, rfl⟩
  simp only [set_subscription, constrain, MIN_SUB_INTERVAL, MAX_SUB_INTERVAL]
  split_ifs <;> omega

/-- C7: `Message::append` with bytes whose length added to the current
payload length exceeds `PAYLOAD_MAX_SIZE` (255) returns 0 and leaves
the message — type byte, payload length, payload bytes and checksum
slot — exactly as before the call (the returned message is the input
itself); an in-bounds append returns the appended size and grows the
declared payload length by exactly that size, leaving the type byte
alone. -/
theorem c7_append_atomic (m : Message) (bs : List Nat) :
    (m.len + bs.length > PAYLOAD_MAX_SIZE → Message.append m bs = (0, m)) ∧
    (m.len + bs.length ≤ PAYLOAD_MAX_SIZE →
      (Message.append m bs).1 = bs.length ∧
      (Message.append m bs).2.len = m.len + bs.length ∧
      (Message.append m bs).2.typ = m.typ) := by
  constructor
  · intro h
    simp only [Message.append, Message.set_payload_length]
    rw [if_neg (by omega)]
  · intro h
    simp only [Message.append, Message.set_payload_length]
    rw [if_pos h]
    exact ⟨rfl, rfl, rfl⟩

/-- C7 witness: at the fresh buffer, a 256-byte append fails and
returns the buffer untouched, while a 2-byte append succeeds and grows
the payload length to 2. -/
theorem c7_append_atomic_witness :
    Message.append ExM0 (List.replicate 256 7) = (0, ExM0) ∧
    (Message.append ExM0 [1, 2]).1 = 2 ∧
    (Message.append ExM0 [1, 2]).2.len = 2 :=
  ⟨(c7_append_atomic ExM0 (List.replicate 256 7)).1 (by decide),
   ((c7_append_atomic ExM0 [1, 2]).2 (by decide)).1,
   ((c7_append_atomic ExM0 [1, 2]).2 (by decide)).2.1⟩

/-- C2: evaluation of `SmartDevice::send_data` at a parameter map whose
combined bytes exceed the payload capacity.  All sixteen bits of
`0xFFFF` are set and the single DEV_DATA build fails, so the claimed
fallback should transmit sixteen single-parameter messages; instead the
source rebuilds the full map inside the fallback loop (the single-bit
map it computes is never passed), every rebuild overflows again, no
message is sent at all, and the call returns failure. -/
theorem c2_fragmentation_bug :
    (make_dev_data ExM0 65535 ExTable16).isSome = false ∧
    (List.range 16).all (fun i => (65535 : Nat).testBit i) = true ∧
    (send_data ExCap ExSt16 65535).1 = false ∧
    (send_data ExCap ExSt16 65535).2.2 = [] := by
  refine ⟨by decide, by decide, by decide, by decide⟩

/-- C4: evaluation of the scheduled phase of `SmartDevice::loop` at a
state whose heartbeat task (interval 1000, last fired at 0) is due at
time 1000, entered at `now = 999`: the serving deadline is the
scheduler's `stop = 1000`, which is below `now + MIN_SERVE_INTERVAL`
= 1039 — the deadline is never raised, and the 1 ms window is below
`MIN_TIMEOUT`, so `serve_once` would not even attempt a receive. -/
theorem c4_no_min_serve_window :
    (loopIter ExCap ExSt4 999).2.2 = 1000 ∧
    (loopIter ExCap ExSt4 999).2.2 < 999 + MIN_SERVE_INTERVAL ∧
    MIN_SERVE_INTERVAL = 40 ∧
    (loopIter ExCap ExSt4 999).2.2 - 999 < MIN_TIMEOUT := by
  refine ⟨by decide, by decide, by decide, by decide⟩

/-- C3 counterexample: a device with an active subscription covering
parameter 0 (`subscription = 1`, update interval 40) receives a valid
DEV_READ requesting exactly parameter 0.  The claim says the map passed
to `send_data` has the subscription bits masked off (here `maskOff 1 1
= 0`), but `serve_once` transmits the DEV_DATA reply for the unmasked
map `1` — its frames differ from the frames `send_data` produces on
the masked map, so the reply does duplicate the subscribed
parameter. -/
theorem c3_no_masking_counterexample :
    ExStR.subscription = 1 ∧
    is_subscribed ExStR = true ∧
    (read_dev_read ExStR.msg Cells.zero).1 = true ∧
    (read_dev_read ExStR.msg Cells.zero).2.pmap = 1 ∧
    maskOff 1 ExStR.subscription = 0 ∧
    (serveDispatch ExCapR ExStR).2.1 = [[21, 3, 1, 0, 170, 189]] ∧
    (send_data ExCapR ExStR (maskOff 1 ExStR.subscription)).2.2 = [[21, 2, 0, 0, 23]] ∧
    (serveDispatch ExCapR ExStR).2.1
      ≠ (send_data ExCapR ExStR (maskOff 1 ExStR.subscription)).2.2 := by
  refine ⟨by decide, by decide, by decide, by decide, by decide, by decide, by decide, by decide⟩

/-- Unfolding of the `Task::select` loop: the returned task list
updates each due task, and the returned deadline is the fold of `min`
over the updated next-fire times. -/
theorem selectGo_spec (now : Nat) : ∀ (ts : List Task) (stop : Nat),
    Task.selectGo now ts stop
      = ((ts.map (fun t => if t.next ≤ now then { t with last := now, ready := true } else t)).foldl
            (fun s t => min s t.next) stop,
          ts.map fun t => if t.next ≤ now then { t with last := now, ready := true } else t)
  | [], _ => rfl
  | t :: ts, stop => by
    simp only [Task.selectGo, List.map_cons, List.foldl_cons]
    rw [selectGo_spec now ts]

theorem foldl_min_le_init : ∀ (l : List Task) (a : Nat),
    l.foldl (fun s t => min s t.next) a ≤ a
  | [], a => le_refl a
  | t :: ts, a => le_trans (foldl_min_le_init ts (min a t.next)) (min_le_left _ _)

theorem foldl_min_le_mem : ∀ (l : List Task) (a : Nat) (t : Task), t ∈ l →
    l.foldl (fun s t => min s t.next) a ≤ t.next := by
  intro l
  induction l with
  | nil => intro a t ht; cases ht
  | cons hd tl ih =>
    intro a t ht
    rcases List.mem_cons.mp ht with h | h
    · subst h
      exact le_trans (foldl_min_le_init tl (min a t.next)) (min_le_right _ _)
    · exact ih (min a hd.next) t h

theorem foldl_min_eq_init_or_mem : ∀ (l : List Task) (a : Nat),
    l.foldl (fun s t => min s t.next) a = a ∨
      ∃ t ∈ l, l.foldl (fun s t => min s t.next) a = t.next := by
  intro l
  induction l with
  | nil => intro a; exact Or.inl rfl
  | cons hd tl ih =>
    intro a
    rcases ih (min a hd.next) with h | ⟨t, ht, h⟩
    · simp only [List.foldl_cons]
      rcases le_total a hd.next with hle | hle
      · rw [h, min_eq_left hle]; exact Or.inl rfl
      · rw [h, min_eq_right hle]
        exact Or.inr ⟨hd, List.mem_cons_self hd tl, rfl⟩
    · exact Or.inr ⟨t, List.mem_cons_of_mem hd ht, h⟩

/-- C5: for every task list and current time, `Task::select` marks
ready and sets `last` to `now` for exactly those tasks with
`now >= last + interval`, and returns the minimum over all tasks of
their (possibly just-updated) next-fire time, capped at
`now + MAX_INTERVAL`; with zero tasks it returns exactly `now + 1000`.
In particular, for tasks with intervals 600, 1100, 800 created at
1000: at `now = 1599` it returns 1600 with no task ready, and at
`now = 1600` the 600-interval task fires and it returns 1800.  (The
unsigned-long hypotheses rule timestamp wraparound out.) -/
theorem c5_select (tasks : List Task) (now : Nat)
    (hnow : now + MAX_INTERVAL < U32)
    (hb : ∀ t ∈ tasks, t.last + t.interval < U32) :
    ((Task.select tasks now).2
        = tasks.map fun t =>
            if t.last + t.interval ≤ now then { t with last := now, ready := true } else t) ∧
    (Task.select tasks now).1 ≤ now + MAX_INTERVAL ∧
    (∀ t1 ∈ (Task.select tasks now).2, (Task.select tasks now).1 ≤ t1.next) ∧
    ((Task.select tasks now).1 = now + MAX_INTERVAL
      ∨ ∃ t1 ∈ (Task.select tasks now).2, (Task.select tasks now).1 = t1.next) ∧
    Task.select ([] : List Task) now = (now + MAX_INTERVAL, []) ∧
    Task.select [ExTaskA, ExTaskB, ExTaskC] 1599 = (1600, [ExTaskA, ExTaskB, ExTaskC]) ∧
    Task.select [ExTaskA, ExTaskB, ExTaskC] 1600
      = (1800, [⟨true, 1600, 600⟩, ExTaskB, ExTaskC]) := by
  have hmap : (tasks.map fun t =>
        if t.next ≤ now then { t with last := now, ready := true } else t)
      = tasks.map fun t =>
        if t.last + t.interval ≤ now then { t with last := now, ready := true } else t := by
    refine List.map_congr_left (fun t ht => ?_)
    rw [Task.next, Nat.mod_eq_of_lt (hb t ht)]
  have hsel : Task.select tasks now
      = ((tasks.map (fun t => if t.next ≤ now then { t with last := now, ready := true } else t)).foldl
            (fun s t => min s t.next) (now + MAX_INTERVAL),
          tasks.map fun t => if t.next ≤ now then { t with last := now, ready := true } else t) := by
    rw [Task.select, Nat.mod_eq_of_lt hnow, selectGo_spec]
  refine ⟨?_, ?_, ?_, ?_, ?_, by decide, by decide⟩
  · rw [hsel, hmap]
  · rw [hsel]; exact foldl_min_le_init _ _
  · rw [hsel]; intro t1 ht1; exact foldl_min_le_mem _ _ t1 ht1
  · rw [hsel]; exact foldl_min_eq_init_or_mem _ _
  · rw [Task.select, Nat.mod_eq_of_lt hnow]; rfl

/-- C5 witness: the general characterization applied to the concrete
scheduler example at `now = 1599`. -/
theorem c5_select_witness :
    (1599 + MAX_INTERVAL < U32 ∧
      ∀ t ∈ [ExTaskA, ExTaskB, ExTaskC], t.last + t.interval < U32) ∧
    (Task.select [ExTaskA, ExTaskB, ExTaskC] 1599).1 ≤ 1599 + MAX_INTERVAL :=
  ⟨⟨by decide, by decide⟩,
    (c5_select [ExTaskA, ExTaskB, ExTaskC] 1599 (by decide) (by decide)).2.1⟩

theorem runWatchdog_append : ∀ (xs ys : List Event) (a : Bool),
    runWatchdog a (xs ++ ys)
      = ((runWatchdog (flagAfter a xs) ys).1,
          disables a xs ++ (runWatchdog (flagAfter a xs) ys).2)
  | [], ys, a => rfl
  | Event.recv v :: xs, ys, a => by
    simp only [List.cons_append, runWatchdog, flagAfter, disables]
    exact runWatchdog_append xs ys (recvFlag a v)
  | Event.tick :: xs, ys, a => by
    simp only [List.cons_append, runWatchdog, flagAfter, disables, List.append_eq]
    rw [runWatchdog_append xs ys false]
    rfl

theorem flagAfter_noTick : ∀ (ys : List Event) (a : Bool), (∀ e ∈ ys, e ≠ Event.tick) →
    flagAfter a ys = (a || ys.any Event.isValid)
  | [], a, _ => by simp [flagAfter, runWatchdog]
  | Event.recv v :: ys, a, h => by
    have := flagAfter_noTick ys (recvFlag a v) (fun e he => h e (List.mem_cons_of_mem _ he))
    simp only [flagAfter, runWatchdog] at this ⊢
    rw [this]
    simp [recvFlag, Event.isValid, Bool.or_assoc]
  | Event.tick :: ys, a, h => absurd rfl (h Event.tick (List.mem_cons_self _ _))

theorem disables_noTick : ∀ (ys : List Event) (a : Bool), (∀ e ∈ ys, e ≠ Event.tick) →
    disables a ys = []
  | [], a, _ => rfl
  | Event.recv v :: ys, a, h =>
    disables_noTick ys (recvFlag a v) (fun e he => h e (List.mem_cons_of_mem _ he))
  | Event.tick :: ys, a, h => absurd rfl (h Event.tick (List.mem_cons_self _ _))

/-- C1: `maybe_disable` invokes the external disable capability iff the
liveness flag is false at entry and unconditionally clears the flag;
the flag is set exactly by a successfully decoded message in
`SerialHandler::recv`; and in any interleaving of receive attempts and
watchdog ticks, the disable decision at a tick preceded by an earlier
tick is exactly "no valid message was decoded since that previous
tick" — so disable never fires at a tick whose window contained a valid
message. -/
theorem c1_watchdog :
    (∀ a, maybe_disable a = (!a, false)) ∧
    (∀ a v, flagAfter a [Event.recv v] = (a || v)) ∧
    ∀ (a : Bool) (xs ys zs : List Event), (∀ e ∈ ys, e ≠ Event.tick) →
      disables a (xs ++ Event.tick :: ys ++ Event.tick :: zs)
        = disables a xs ++ (!flagAfter a xs) :: (!ys.any Event.isValid) :: disables false zs := by
  refine ⟨fun a => rfl, fun a v => by simp [flagAfter, runWatchdog, recvFlag], ?_⟩
  intro a xs ys zs hys
  have h1 : disables a (xs ++ Event.tick :: ys ++ Event.tick :: zs)
      = disables a xs ++ disables (flagAfter a xs) (Event.tick :: ys ++ Event.tick :: zs) := by
    have := congrArg Prod.snd (runWatchdog_append xs (Event.tick :: ys ++ Event.tick :: zs) a)
    simpa [disables] using this
  have h2 : ∀ f : Bool, disables f (Event.tick :: ys ++ Event.tick :: zs)
      = (!f) :: ((!ys.any Event.isValid) :: disables false zs) := by
    intro f
    have h3 : disables false (ys ++ Event.tick :: zs)
        = disables false ys ++ disables (flagAfter false ys) (Event.tick :: zs) := by
      have := congrArg Prod.snd (runWatchdog_append ys (Event.tick :: zs) false)
      simpa [disables] using this
    have h4 : disables f (Event.tick :: ys ++ Event.tick :: zs)
        = (!f) :: disables false (ys ++ Event.tick :: zs) := rfl
    rw [h4, h3, disables_noTick ys false hys, flagAfter_noTick ys false hys]
    have h5 : disables (false || ys.any Event.isValid) (Event.tick :: zs)
        = (!(false || ys.any Event.isValid)) :: disables false zs := rfl
    rw [h5]
    simp
  rw [h1, h2]

/-- C1 witness: a concrete trace — valid message, tick, invalid
message, tick, tick — whose disable decisions follow the window rule. -/
theorem c1_watchdog_witness :
    (∀ e ∈ [Event.recv false], e ≠ Event.tick) ∧
    disables true ([Event.recv true] ++ Event.tick :: [Event.recv false] ++ Event.tick :: [Event.tick])
      = disables true [Event.recv true]
        ++ (!flagAfter true [Event.recv true])
          :: (Bool.not ([Event.recv false].any Event.isValid)) :: disables false [Event.tick] :=
  ⟨by decide,
    c1_watchdog.2.2 true [Event.recv true] [Event.recv false] [Event.tick] (by decide)⟩

theorem foldl_xor_shift (f : Nat → Nat) : ∀ (l : List Nat) (a : Nat),
    l.foldl (fun x j => x ^^^ f j) a = a ^^^ l.foldl (fun x j => x ^^^ f j) 0
  | [], a => (Nat.xor_zero a).symm
  | j :: l, a => by
    simp only [List.foldl_cons]
    rw [foldl_xor_shift f l (a ^^^ f j), foldl_xor_shift f l (0 ^^^ f j), Nat.zero_xor,
      Nat.xor_assoc]

theorem foldl_xor_congr : ∀ (l : List Nat) (f g : Nat → Nat) (a : Nat), (∀ j ∈ l, f j = g j) →
    l.foldl (fun x j => x ^^^ f j) a = l.foldl (fun x j => x ^^^ g j) a
  | [], _, _, _, _ => rfl
  | j :: l, f, g, a, h => by
    simp only [List.foldl_cons]
    rw [h j (List.mem_cons_self _ _),
      foldl_xor_congr l f g (a ^^^ g j) (fun x hx => h x (List.mem_cons_of_mem _ hx))]

theorem xor_left_comm (a b c : Nat) : a ^^^ (b ^^^ c) = b ^^^ (a ^^^ c) := by
  rw [← Nat.xor_assoc, Nat.xor_comm a b, Nat.xor_assoc]

theorem foldl_xor_update : ∀ (n : Nat) (p : Nat), p < n → ∀ (f : Nat → Nat) (b : Nat),
    (List.range n).foldl (fun x j => x ^^^ upd f p b j) 0
      = (List.range n).foldl (fun x j => x ^^^ f j) 0 ^^^ f p ^^^ b := by
  intro n
  induction n with
  | zero => intro p hp; omega
  | succ n ih =>
    intro p hp f b
    rw [List.range_succ, List.foldl_append, List.foldl_append]
    simp only [List.foldl_cons, List.foldl_nil]
    by_cases hpn : p = n
    · subst hpn
      have hpre : (List.range p).foldl (fun x j => x ^^^ upd f p b j) 0
          = (List.range p).foldl (fun x j => x ^^^ f j) 0 := by
        refine foldl_xor_congr (List.range p) (upd f p b) f 0 (fun j hj => ?_)
        have hjp := List.mem_range.mp hj
        simp only [upd]
        rw [if_neg (by omega)]
      have hv : upd f p b p = b := by simp [upd]
      rw [hpre, hv]
      simp only [Nat.xor_assoc]
      rw [← Nat.xor_assoc (f p) (f p) b, Nat.xor_self, Nat.zero_xor]
    · have hlt : p < n := by omega
      rw [ih p hlt f b]
      have hv : upd f p b n = f n := by simp only [upd]; rw [if_neg (by omega)]
      rw [hv]
      simp only [Nat.xor_assoc]
      rw [Nat.xor_comm b (f n), xor_left_comm (f p) (f n) b]

theorem compute_checksum_update (m : Message) (i b : Nat) (hi : i < m.len) :
    compute_checksum { m with data := upd m.data i b }
      = compute_checksum m ^^^ m.data i ^^^ b := by
  unfold compute_checksum
  have hcong : ∀ j ∈ List.range (2 + m.len),
      bufByte { m with data := upd m.data i b } j = upd (bufByte m) (i + 2) b j := by
    intro j _
    simp only [bufByte, upd]
    split_ifs <;> first | rfl | omega
  rw [foldl_xor_congr _ _ _ 0 hcong]
  rw [foldl_xor_update (2 + m.len) (i + 2) (by omega) (bufByte m) b]
  have hbb : bufByte m (i + 2) = m.data i := by
    simp only [bufByte]
    rw [if_neg (by omega), if_neg (by omega)]
    norm_num
  rw [hbb]

/-- C9: for every finished message (the stored checksum byte equals the
XOR of the type byte, the payload-length byte and the payload bytes)
and every declared payload position, overwriting that byte with any
different value makes `verify_checksum` return false; the original
finished message verifies, and `verify_checksum` is a pure observation
of the message (the embedding reads the buffer and changes nothing). -/
theorem c9_checksum_flip (m : Message) (i b : Nat)
    (hfin : m.data m.len = compute_checksum m)
    (hi : i < m.len) (hb : b ≠ m.data i) :
    verify_checksum { m with data := upd m.data i b } = false ∧
    verify_checksum m = true := by
  constructor
  · unfold verify_checksum
    have hstored : upd m.data i b m.len = m.data m.len := by
      simp only [upd]; rw [if_neg (by omega)]
    show (upd m.data i b m.len == compute_checksum { m with data := upd m.data i b }) = false
    rw [hstored, compute_checksum_update m i b hi, hfin]
    refine beq_eq_false_iff_ne.mpr (fun h => ?_)
    have h2 := congrArg (fun y => compute_checksum m ^^^ y) h
    simp only at h2
    rw [Nat.xor_self, Nat.xor_assoc, ← Nat.xor_assoc, Nat.xor_self, Nat.zero_xor] at h2
    exact hb (by
      have := congrArg (fun y => m.data i ^^^ y) h2
      simpa [Nat.xor_zero, ← Nat.xor_assoc, Nat.xor_self, Nat.zero_xor] using this.symm)
  · unfold verify_checksum
    simp [hfin]

/-- C9 witness: flipping payload byte 0 of the finished heartbeat
request `ExM9` to 7 breaks checksum verification. -/
theorem c9_checksum_flip_witness :
    (ExM9.data ExM9.len = compute_checksum ExM9 ∧ 0 < ExM9.len ∧ 7 ≠ ExM9.data 0) ∧
    verify_checksum { ExM9 with data := upd ExM9.data 0 7 } = false :=
  ⟨⟨by decide, by decide, by decide⟩,
    (c9_checksum_flip ExM9 0 7 (by decide) (by decide) (by decide)).1⟩

theorem read_sub_req_eq (m : Message) (c : Cells) :
    (read_sub_req m c).1 = (decide (m.typ = SUB_REQ) && decide (m.len = 4)) := by
  unfold read_sub_req readLE
  by_cases ht : m.typ = SUB_REQ
  · rw [if_neg (not_not_intro ht)]
    by_cases h2 : 0 + 2 > m.len ∨ (2 : Nat) = 0
    · rw [if_pos h2]
      have hne : m.len ≠ 4 := by rcases h2 with h2 | h2 <;> omega
      simp [ht, hne]
    · rw [if_neg h2]
      by_cases h4 : 2 + 2 > m.len ∨ (2 : Nat) = 0
      · rw [if_pos h4]
        have hne : m.len ≠ 4 := by rcases h4 with h4 | h4 <;> omega
        simp [ht, hne]
      · rw [if_neg h4]
        by_cases hl : m.len = 4 <;> simp [ht, hl, eq_comm]
  · rw [if_pos ht]
    simp [ht]

theorem read_sub_res_eq (m : Message) (c : Cells) :
    (read_sub_res m c).1 = (decide (m.typ = SUB_RES) && decide (m.len = 15)) := by
  unfold read_sub_res readLE
  by_cases ht : m.typ = SUB_RES
  · rw [if_neg (not_not_intro ht)]
    by_cases h1 : 0 + 2 > m.len ∨ (2 : Nat) = 0
    · rw [if_pos h1]
      have hne : m.len ≠ 15 := by rcases h1 with h1 | h1 <;> omega
      simp [ht, hne]
    · rw [if_neg h1]
      by_cases h2 : 2 + 2 > m.len ∨ (2 : Nat) = 0
      · rw [if_pos h2]
        have hne : m.len ≠ 15 := by rcases h2 with h2 | h2 <;> omega
        simp [ht, hne]
      · rw [if_neg h2]
        by_cases h3 : 4 + 2 > m.len ∨ (2 : Nat) = 0
        · rw [if_pos h3]
          have hne : m.len ≠ 15 := by rcases h3 with h3 | h3 <;> omega
          simp [ht, hne]
        · rw [if_neg h3]
          by_cases h4 : 6 + 1 > m.len ∨ (1 : Nat) = 0
          · rw [if_pos h4]
            have hne : m.len ≠ 15 := by rcases h4 with h4 | h4 <;> omega
            simp [ht, hne]
          · rw [if_neg h4]
            by_cases h5 : 7 + 8 > m.len ∨ (8 : Nat) = 0
            · rw [if_pos h5]
              have hne : m.len ≠ 15 := by rcases h5 with h5 | h5 <;> omega
              simp [ht, hne]
            · rw [if_neg h5]
              by_cases hl : m.len = 15 <;> simp [ht, hl, eq_comm]
  · rw [if_pos ht]
    simp [ht]

theorem read_dev_read_eq (m : Message) (c : Cells) :
    (read_dev_read m c).1 = (decide (m.typ = DEV_READ) && decide (m.len = 2)) := by
  unfold read_dev_read readLE
  by_cases ht : m.typ = DEV_READ
  · rw [if_neg (not_not_intro ht)]
    by_cases h2 : 0 + 2 > m.len ∨ (2 : Nat) = 0
    · rw [if_pos h2]
      have hne : m.len ≠ 2 := by rcases h2 with h2 | h2 <;> omega
      simp [ht, hne]
    · rw [if_neg h2]
      by_cases hl : m.len = 2 <;> simp [ht, hl, eq_comm]
  · rw [if_pos ht]
    simp [ht]

theorem read_hb_req_eq (m : Message) (c : Cells) :
    (read_hb_req m c).1 = (decide (m.typ = HB_REQ) && decide (m.len = 1)) := by
  unfold read_hb_req readLE
  by_cases ht : m.typ = HB_REQ
  · rw [if_neg (not_not_intro ht)]
    by_cases h2 : 0 + 1 > m.len ∨ (1 : Nat) = 0
    · rw [if_pos h2]
      have hne : m.len ≠ 1 := by rcases h2 with h2 | h2 <;> omega
      simp [ht, hne]
    · rw [if_neg h2]
      by_cases hl : m.len = 1 <;> simp [ht, hl, eq_comm]
  · rw [if_pos ht]
    simp [ht]

theorem read_hb_res_eq (m : Message) (c : Cells) :
    (read_hb_res m c).1 = (decide (m.typ = HB_RES) && decide (m.len = 1)) := by
  unfold read_hb_res readLE
  by_cases ht : m.typ = HB_RES
  · rw [if_neg (not_not_intro ht)]
    by_cases h2 : 0 + 1 > m.len ∨ (1 : Nat) = 0
    · rw [if_pos h2]
      have hne : m.len ≠ 1 := by rcases h2 with h2 | h2 <;> omega
      simp [ht, hne]
    · rw [if_neg h2]
      by_cases hl : m.len = 1 <;> simp [ht, hl, eq_comm]
  · rw [if_pos ht]
    simp [ht]

theorem read_error_eq (m : Message) (c : Cells) :
    (read_error m c).1 = (decide (m.typ = ERROR) && decide (m.len = 1)) := by
  unfold read_error readLE
  by_cases ht : m.typ = ERROR
  · rw [if_neg (not_not_intro ht)]
    by_cases h2 : 0 + 1 > m.len ∨ (1 : Nat) = 0
    · rw [if_pos h2]
      have hne : m.len ≠ 1 := by rcases h2 with h2 | h2 <;> omega
      simp [ht, hne]
    · rw [if_neg h2]
      by_cases hl : m.len = 1 <;> simp [ht, hl, eq_comm]
  · rw [if_pos ht]
    simp [ht]

theorem sizeAt_set_ne (tb : Table) (i j : Nat) (v : Param) (h : i ≠ j) :
    sizeAt (tb.set i v) j = sizeAt tb j := by
  unfold sizeAt
  rw [List.getD_eq_getElem?_getD, List.getD_eq_getElem?_getD, List.getElem?_set_ne h]

theorem sumSizes_set_ne (p : Nat) (tb : Table) (i : Nat) (v : Param) :
    ∀ idxs : List Nat, i ∉ idxs → sumSizes p (tb.set i v) idxs = sumSizes p tb idxs
  | [], _ => rfl
  | j :: is, h => by
    have hij : i ≠ j := fun hh => h (hh ▸ List.mem_cons_self _ _)
    have hrest : i ∉ is := fun hh => h (List.mem_cons_of_mem _ hh)
    simp only [sumSizes]
    rw [sizeAt_set_ne tb i j v hij, sumSizes_set_ne p tb i v is hrest]

theorem readParamsGo_some (m : Message) (p : Nat) :
    ∀ (idxs : List Nat), idxs.Nodup → ∀ (off : Nat) (tb : Table) (off2 : Nat) (tb2 : Table),
      readParamsGo m p idxs off tb = (some off2, tb2) →
      off2 = off + sumSizes p tb idxs
  | [], _, off, tb, off2, tb2, h => by
    simp only [readParamsGo, Prod.mk.injEq, Option.some.injEq] at h
    simp only [sumSizes]
    omega

  | i :: is, hnd, off, tb, off2, tb2, h => by
    have hnotin : i ∉ is := (List.nodup_cons.mp hnd).1
    have hnd2 : is.Nodup := (List.nodup_cons.mp hnd).2
    simp only [readParamsGo] at h
    by_cases hbit : p.testBit i
    · rw [if_pos hbit] at h
      split at h
      · simp at h
      next bs hgd =>
        split at h
        · simp at h
        next hguard =>
          have ih := readParamsGo_some m p is hnd2 (off + bs.length)
            (tb.set i (some (readBytes m off bs.length))) off2 tb2 h
          rw [sumSizes_set_ne p tb i _ is hnotin] at ih
          simp only [sumSizes, if_pos hbit]
          have hsz : sizeAt tb i = bs.length := by unfold sizeAt; rw [hgd]
          omega
    · rw [if_neg hbit] at h
      have ih := readParamsGo_some m p is hnd2 off tb off2 tb2 h
      simp only [sumSizes, if_neg hbit]
      omega

theorem read_params_eq (m : Message) (c : Cells) (tb : Table) (p : Nat)
    (hp : readLE m 0 2 = some p) :
    read_params m c tb
      = (match readParamsGo m p (List.range MAX_PARAMETERS) 2 tb with
          | (none, tb2) => (false, { c with pmap := p }, tb2)
          | (some off, tb2) => (decide (off = m.len), { c with pmap := p }, tb2)) := by
  unfold read_params
  rw [hp]

theorem read_params_success (m : Message) (c : Cells) (tb : Table) :
    (read_params m c tb).1 = true →
    m.len = 2 + paramSizeSum ((read_params m c tb).2.1.pmap) tb := by
  intro h
  cases hle : readLE m 0 2 with
  | none =>
    unfold read_params at h
    rw [hle] at h
    simp at h
  | some p =>
    have he := read_params_eq m c tb p hle
    rw [he] at h ⊢
    cases h2 : readParamsGo m p (List.range MAX_PARAMETERS) 2 tb with
    | mk o tb2 =>
      rw [h2] at h
      cases o with
      | none => simp at h
      | some off =>
        have h3 : decide (off = m.len) = true := h
        have hoff : off = m.len := of_decide_eq_true h3
        have hsum := readParamsGo_some m p (List.range MAX_PARAMETERS)
          (List.nodup_range MAX_PARAMETERS) 2 tb off tb2 h2
        show m.len = 2 + paramSizeSum p tb
        simp only [paramSizeSum]
        omega

/-- C8: every targeted parser returns success only if the message's
stored type byte equals the parser's expected type — on a mismatch it
fails without writing to any output cell — and only if the bytes
consumed by its field sequence exactly equal the declared payload
length; for the fixed-layout parsers success is exactly "type matches
and the payload length equals the layout size" (so trailing extra
bytes and truncated payloads are both rejected), and for the
parameter-carrying parsers a success forces the declared length to be
exactly the present map plus the combined parameter bytes. -/
theorem c8_targeted_parse (m : Message) (c : Cells) (tb : Table) :
    (m.typ ≠ SUB_REQ → read_sub_req m c = (false, c)) ∧
    ((read_sub_req m c).1 = (decide (m.typ = SUB_REQ) && decide (m.len = 4))) ∧
    (m.typ ≠ SUB_RES → read_sub_res m c = (false, c)) ∧
    ((read_sub_res m c).1 = (decide (m.typ = SUB_RES) && decide (m.len = 15))) ∧
    (m.typ ≠ DEV_READ → read_dev_read m c = (false, c)) ∧
    ((read_dev_read m c).1 = (decide (m.typ = DEV_READ) && decide (m.len = 2))) ∧
    (m.typ ≠ HB_REQ → read_hb_req m c = (false, c)) ∧
    ((read_hb_req m c).1 = (decide (m.typ = HB_REQ) && decide (m.len = 1))) ∧
    (m.typ ≠ HB_RES → read_hb_res m c = (false, c)) ∧
    ((read_hb_res m c).1 = (decide (m.typ = HB_RES) && decide (m.len = 1))) ∧
    (m.typ ≠ ERROR → read_error m c = (false, c)) ∧
    ((read_error m c).1 = (decide (m.typ = ERROR) && decide (m.len = 1))) ∧
    (m.typ ≠ DEV_WRITE → read_dev_write m c tb = (false, c, tb)) ∧
    (m.typ ≠ DEV_DATA → read_dev_data m c tb = (false, c, tb)) ∧
    ((read_dev_write m c tb).1 = true →
      m.len = 2 + paramSizeSum ((read_dev_write m c tb).2.1.pmap) tb) ∧
    ((read_dev_data m c tb).1 = true →
      m.len = 2 + paramSizeSum ((read_dev_data m c tb).2.1.pmap) tb) := by
  refine ⟨fun h => by unfold read_sub_req; rw [if_pos h], read_sub_req_eq m c,
    fun h => by unfold read_sub_res; rw [if_pos h], read_sub_res_eq m c,
    fun h => by unfold read_dev_read; rw [if_pos h], read_dev_read_eq m c,
    fun h => by unfold read_hb_req; rw [if_pos h], read_hb_req_eq m c,
    fun h => by unfold read_hb_res; rw [if_pos h], read_hb_res_eq m c,
    fun h => by unfold read_error; rw [if_pos h], read_error_eq m c,
    fun h => by unfold read_dev_write; rw [if_pos h], fun h => by unfold read_dev_data; rw [if_pos h],
    ?_, ?_⟩
  · intro h
    unfold read_dev_write at h ⊢
    by_cases ht : m.typ = DEV_WRITE
    · rw [if_neg (not_not_intro ht)] at h ⊢
      exact read_params_success m c tb h
    · rw [if_pos ht] at h; cases h
  · intro h
    unfold read_dev_data at h ⊢
    by_cases ht : m.typ = DEV_DATA
    · rw [if_neg (not_not_intro ht)] at h ⊢
      exact read_params_success m c tb h
    · rw [if_pos ht] at h; cases h

/-- C8 witness: the finished SUB_REQ message `ExMS` parses successfully
with `read_sub_req` (type matches, payload length 4), while
`read_sub_res` rejects it without touching the output cells. -/
theorem c8_targeted_parse_witness :
    ExMS.typ ≠ SUB_RES ∧
    read_sub_res ExMS Cells.zero = (false, Cells.zero) ∧
    (read_sub_req ExMS Cells.zero).1
      = (decide (ExMS.typ = SUB_REQ) && decide (ExMS.len = 4)) :=
  ⟨by decide, (c8_targeted_parse ExMS Cells.zero []).2.2.1 (by decide),
    (c8_targeted_parse ExMS Cells.zero []).2.1⟩

theorem getD_set_ne (tb : Table) (i j : Nat) (v : Param) (h : i ≠ j) :
    (tb.set i v).getD j none = tb.getD j none := by
  rw [List.getD_eq_getElem?_getD, List.getD_eq_getElem?_getD, List.getElem?_set_ne h]

theorem writeData_lt (bs : List Nat) : ∀ (f : Nat → Nat) (s j : Nat), j < s →
    writeData f s bs j = f j := by
  induction bs with
  | nil => intro f s j _; rfl
  | cons b bs ih =>
    intro f s j hj
    show writeData (upd f s b) (s + 1) bs j = f j
    rw [ih (upd f s b) (s + 1) j (by omega)]
    simp only [upd]
    rw [if_neg (by omega)]

theorem appendCheck_some_eq (m : Message) (bs : List Nat) :
    appendCheck (some m) bs
      = if bs.length ≠ 0 ∧ m.len + bs.length ≤ PAYLOAD_MAX_SIZE
        then some { m with len := m.len + bs.length, data := writeData m.data m.len bs }
        else none := by
  unfold appendCheck Message.append Message.set_payload_length
  have hbind : ∀ (f : Message → Option Message), (some m).bind f = f m := fun f => rfl
  rw [hbind]
  by_cases hfit : m.len + bs.length ≤ PAYLOAD_MAX_SIZE
  · rw [if_pos hfit]
    by_cases hz : bs.length = 0
    · dsimp only
      rw [if_pos hz, if_neg (fun hc => hc.1 hz)]
    · dsimp only
      rw [if_neg hz, if_pos ⟨hz, hfit⟩]
  · rw [if_neg hfit]
    dsimp only
    rw [if_pos rfl, if_neg (fun hc => hfit hc.2)]

/-- The per-bit body of `Message::append_params`. -/
def appendParamsStep (present : Nat) (table : Table) (om : Option Message) (i : Nat) :
    Option Message :=
  match om with
  | none => none
  | some mm =>
    if present.testBit i then
      match table.getD i none with
      | none => some mm
      | some bs => appendCheck (some mm) bs
    else some mm

theorem append_params_as_fold (m : Message) (present : Nat) (table : Table) :
    append_params m present table
      = (List.range MAX_PARAMETERS).foldl (appendParamsStep present table)
          (appendCheck (some m) (le2 present)) := by
  unfold append_params
  refine congrArg
    (fun f => (List.range MAX_PARAMETERS).foldl f (appendCheck (some m) (le2 present))) ?_
  funext om i
  cases om <;> rfl

theorem foldl_appendParamsStep_none (present : Nat) (table : Table) :
    ∀ idxs : List Nat, idxs.foldl (appendParamsStep present table) none = none
  | [] => rfl
  | i :: is => foldl_appendParamsStep_none present table is

theorem foldl_appendParamsStep_some (present : Nat) (table : Table) :
    ∀ (idxs : List Nat) (mm m2 : Message),
      idxs.foldl (appendParamsStep present table) (some mm) = some m2 →
      m2.len = mm.len + sumSizes present table idxs ∧ m2.typ = mm.typ ∧
        ∀ j, j < mm.len → m2.data j = mm.data j
  | [], mm, m2, h => by
    simp only [List.foldl_nil, Option.some.injEq] at h
    subst h
    simp [sumSizes]
  | i :: is, mm, m2, h => by
    simp only [List.foldl_cons] at h
    by_cases hbit : present.testBit i
    · cases hgd : table.getD i none with
      | none =>
        have hstep : appendParamsStep present table (some mm) i = some mm := by
          simp only [appendParamsStep, if_pos hbit]
          rw [hgd]
        rw [hstep] at h
        have ih := foldl_appendParamsStep_some present table is mm m2 h
        have hsz : sizeAt table i = 0 := by unfold sizeAt; rw [hgd]
        refine ⟨?_, ih.2.1, ih.2.2⟩
        simp only [sumSizes, if_pos hbit, hsz]
        omega
      | some bs =>
        have hstep : appendParamsStep present table (some mm) i = appendCheck (some mm) bs := by
          simp only [appendParamsStep, if_pos hbit]
          rw [hgd]
        rw [hstep, appendCheck_some_eq] at h
        by_cases hc : bs.length ≠ 0 ∧ mm.len + bs.length ≤ PAYLOAD_MAX_SIZE
        · rw [if_pos hc] at h
          have ih := foldl_appendParamsStep_some present table is _ m2 h
          have hsz : sizeAt table i = bs.length := by unfold sizeAt; rw [hgd]
          refine ⟨?_, ih.2.1, ?_⟩
          · simp only [sumSizes, if_pos hbit, hsz]
            have := ih.1
            simp only at this
            omega
          · intro j hj
            have h1 := ih.2.2 j (by simp only; omega)
            rw [h1]
            simp only
            exact writeData_lt bs mm.data mm.len j hj
        · rw [if_neg hc] at h
          rw [foldl_appendParamsStep_none] at h
          cases h
    · have hstep : appendParamsStep present table (some mm) i = some mm := by
        simp [appendParamsStep, Option.bind, hbit]
      rw [hstep] at h
      have ih := foldl_appendParamsStep_some present table is mm m2 h
      refine ⟨?_, ih.2.1, ih.2.2⟩
      simp only [sumSizes, if_neg hbit]
      omega

theorem append_params_some (m : Message) (present : Nat) (table : Table) (m2 : Message)
    (hfit : m.len + 2 ≤ PAYLOAD_MAX_SIZE)
    (h : append_params m present table = some m2) :
    m2.len = m.len + 2 + paramSizeSum present table ∧ m2.typ = m.typ ∧
      m2.data m.len = present % 256 ∧ m2.data (m.len + 1) = present / 256 % 256 ∧
      ∀ j, j < m.len → m2.data j = m.data j := by
  rw [append_params_as_fold] at h
  have hinit : appendCheck (some m) (le2 present)
      = some { m with len := m.len + 2, data := writeData m.data m.len (le2 present) } := by
    rw [appendCheck_some_eq]
    rw [if_pos ⟨by simp [le2], by simpa [le2] using hfit⟩]
    rfl
  rw [hinit] at h
  have ih := foldl_appendParamsStep_some present table (List.range MAX_PARAMETERS) _ m2 h
  obtain ⟨hlen, htyp, hdat⟩ := ih
  dsimp only at hlen htyp hdat
  have hw : writeData m.data m.len (le2 present)
      = upd (upd m.data m.len (present % 256)) (m.len + 1) (present / 256 % 256) := rfl
  have e1 : writeData m.data m.len (le2 present) m.len = present % 256 := by
    rw [hw]; simp only [upd]; rw [if_neg (show ¬m.len = m.len + 1 by omega)]; simp
  have e2 : writeData m.data m.len (le2 present) (m.len + 1) = present / 256 % 256 := by
    rw [hw]; simp only [upd]; simp
  have e3 : ∀ j, j < m.len → writeData m.data m.len (le2 present) j = m.data j := by
    intro j hj
    rw [hw]; simp only [upd]; rw [if_neg (by omega), if_neg (by omega)]
  refine ⟨by simpa [paramSizeSum] using hlen, htyp, ?_, ?_, ?_⟩
  · rw [hdat m.len (by omega), e1]
  · rw [hdat (m.len + 1) (by omega), e2]
  · intro j hj
    rw [hdat j (by omega), e3 j hj]

theorem readParamsGo_none_of_null (m : Message) (p : Nat) :
    ∀ (idxs : List Nat) (off : Nat) (tb : Table),
      (∃ i ∈ idxs, p.testBit i ∧ tb.getD i none = none) →
      (readParamsGo m p idxs off tb).1 = none
  | [], _, _, h => absurd h (by simp)
  | i :: is, off, tb, h => by
    obtain ⟨j, hj, hbj, hnj⟩ := h
    simp only [readParamsGo]
    by_cases hbit : p.testBit i
    · rw [if_pos hbit]
      cases hgd : tb.getD i none with
      | none => rfl
      | some bs =>
        dsimp only
        have hij : j ≠ i := fun hh => by rw [hh, hgd] at hnj; cases hnj
        have hjs : j ∈ is := by
          rcases List.mem_cons.mp hj with hh | hh
          · exact absurd hh hij
          · exact hh
        by_cases hguard : off + bs.length > m.len ∨ bs.length = 0
        · rw [if_pos hguard]
        · rw [if_neg hguard]
          exact readParamsGo_none_of_null m p is (off + bs.length) _
            ⟨j, hjs, hbj, by rw [getD_set_ne tb i j _ (fun hh => hij hh.symm)]; exact hnj⟩
    · rw [if_neg hbit]
      have hij : j ≠ i := fun hh => by rw [hh] at hbj; exact hbit hbj
      have hjs : j ∈ is := by
        rcases List.mem_cons.mp hj with hh | hh
        · exact absurd hh hij
        · exact hh
      exact readParamsGo_none_of_null m p is off tb ⟨j, hjs, hbj, hnj⟩

theorem read_params_fails_of_null (m : Message) (c : Cells) (tb : Table) (p i : Nat)
    (hle : readLE m 0 2 = some p)
    (hbit : p.testBit i = true) (hnull : tb.getD i none = none) (hi : i < MAX_PARAMETERS) :
    (read_params m c tb).1 = false := by
  rw [read_params_eq m c tb p hle]
  cases h2 : readParamsGo m p (List.range MAX_PARAMETERS) 2 tb with
  | mk o tb2 =>
    have hnone := readParamsGo_none_of_null m p (List.range MAX_PARAMETERS) 2 tb
      ⟨i, List.mem_range.mpr hi, hbit, hnull⟩
    rw [h2] at hnone
    cases o with
    | none => rfl
    | some off => cases hnone

/-- C10: implicit asymmetry of absent backing spans.  For a present map
with a set bit whose parameter slot has a null base, a successful
`make_dev_data` build keeps that bit set in the serialized map and
skips the span (the payload is exactly the 2-byte map plus the present
non-null spans), yet `read_dev_data` on the resulting message against
the same table fails — `read_check` rejects the null destination
rather than skipping it — and a `make_dev_write` build likewise never
parses back through `read_dev_write`. -/
theorem c10_absent_span (m0 : Message) (table : Table) (present i : Nat) (m : Message)
    (hp : present < 65536)
    (hbit : present.testBit i = true)
    (hnull : table.getD i none = none)
    (hmk : make_dev_data m0 present table = some m) :
    m.typ = DEV_DATA ∧
    m.len = 2 + paramSizeSum present table ∧
    m.data 0 = present % 256 ∧
    m.data 1 = present / 256 ∧
    (read_dev_data m Cells.zero table).1 = false ∧
    ∀ mw, make_dev_write m0 present table = some mw →
      (read_dev_write mw Cells.zero table).1 = false := by
  have hi16 : i < MAX_PARAMETERS := by
    by_contra hge
    have h1 : present < 2 ^ i := lt_of_lt_of_le hp (by
      calc (65536 : Nat) = 2 ^ 16 := by norm_num
      _ ≤ 2 ^ i := Nat.pow_le_pow_right (by norm_num) (by
        simp only [MAX_PARAMETERS] at hge; omega))
    rw [Nat.testBit_lt_two_pow h1] at hbit
    cases hbit
  have hdiv : present / 256 % 256 = present / 256 := by
    have : present / 256 < 256 := Nat.div_lt_of_lt_mul (by omega)
    omega
  -- shared facts about the built buffer, for both DEV_DATA and DEV_WRITE
  have hbuild : ∀ (t : Nat) (mr : Message),
      (append_params { m0 with len := 0 } present table).map (finish_message · t) = some mr →
      mr.typ = t ∧ mr.len = 2 + paramSizeSum present table ∧
        mr.data 0 = present % 256 ∧ mr.data 1 = present / 256 := by
    intro t mr hm
    cases hap : append_params { m0 with len := 0 } present table with
    | none => rw [hap] at hm; cases hm
    | some m2 =>
      rw [hap] at hm
      simp only [Option.map_some', Option.some.injEq] at hm
      have hprops := append_params_some { m0 with len := 0 } present table m2
        (by simp [PAYLOAD_MAX_SIZE]) hap
      dsimp only at hprops
      obtain ⟨hlen, _, hd0, hd1, _⟩ := hprops
      have hlen2 : 2 ≤ m2.len := by omega
      subst hm
      unfold finish_message
      refine ⟨rfl, hlen, ?_, ?_⟩
      · show upd m2.data m2.len (compute_checksum { m2 with typ := t }) 0 = present % 256
        simp only [upd]
        rw [if_neg (by omega)]
        simpa using hd0
      · show upd m2.data m2.len (compute_checksum { m2 with typ := t }) 1 = present / 256
        simp only [upd]
        rw [if_neg (by omega)]
        rw [← hdiv]
        simpa using hd1
  have hdd := hbuild DEV_DATA m hmk
  obtain ⟨htyp, hlen, hd0, hd1⟩ := hdd
  have hreadLE : readLE m 0 2 = some present := by
    unfold readLE
    rw [if_neg (by push_neg; exact ⟨by omega, by omega⟩)]
    have : fromLE (readBytes m 0 2) = m.data 0 + 256 * m.data 1 := rfl
    rw [this, hd0, hd1]
    congr 1
    exact Nat.mod_add_div present 256
  refine ⟨htyp, hlen, hd0, hd1, ?_, ?_⟩
  · unfold read_dev_data
    rw [if_neg (not_not_intro htyp)]
    exact read_params_fails_of_null m Cells.zero table present i hreadLE hbit hnull hi16
  · intro mw hmw
    have hw := hbuild DEV_WRITE mw hmw
    obtain ⟨htypw, hlenw, hd0w, hd1w⟩ := hw
    have hreadLEw : readLE mw 0 2 = some present := by
      unfold readLE
      rw [if_neg (by push_neg; exact ⟨by omega, by omega⟩)]
      have : fromLE (readBytes mw 0 2) = mw.data 0 + 256 * mw.data 1 := rfl
      rw [this, hd0w, hd1w]
      congr 1
      exact Nat.mod_add_div present 256
    unfold read_dev_write
    rw [if_neg (not_not_intro htypw)]
    exact read_params_fails_of_null mw Cells.zero table present i hreadLEw hbit hnull hi16

/-- C10 witness: over the table `ExTable2` (bit 0 backed by one byte,
bit 1 absent) with present map `0b11`, the build succeeds, keeps bit 1
set, serializes one span byte, and the message does not parse back. -/
theorem c10_absent_span_witness :
    ((3 : Nat) < 65536 ∧ (3 : Nat).testBit 1 = true ∧ ExTable2.getD 1 none = none ∧
      make_dev_data ExM0 3 ExTable2 = some ExM10) ∧
    (ExM10.len = 2 + paramSizeSum 3 ExTable2 ∧ ExM10.data 0 = 3 ∧
      (read_dev_data ExM10 Cells.zero ExTable2).1 = false) :=
  ⟨⟨by decide, by decide, by decide, by
      show (Message.make_dev_data ExM0 3 ExTable2) = some ((Message.make_dev_data ExM0 3 ExTable2).getD ExM0)
      rfl⟩,
    by
      have h := c10_absent_span ExM0 ExTable2 3 1 ExM10 (by decide) (by decide) (by decide)
        (by
          show (Message.make_dev_data ExM0 3 ExTable2) = some ((Message.make_dev_data ExM0 3 ExTable2).getD ExM0)
          rfl)
      exact ⟨h.2.1, h.2.2.1, h.2.2.2.2.1⟩⟩

theorem sendDataStep_fold_rel (pres : Nat) : ∀ (idxs : List Nat)
    (a b : Bool × DevState × List (List Nat)),
    a.1 = b.1 → a.2.1.msg = b.2.1.msg → a.2.1.params = b.2.1.params → a.2.2 = b.2.2 →
    (idxs.foldl (sendDataStep pres) a).1 = (idxs.foldl (sendDataStep pres) b).1 ∧
    (idxs.foldl (sendDataStep pres) a).2.1.msg = (idxs.foldl (sendDataStep pres) b).2.1.msg ∧
    (idxs.foldl (sendDataStep pres) a).2.1.params
      = (idxs.foldl (sendDataStep pres) b).2.1.params ∧
    (idxs.foldl (sendDataStep pres) a).2.2 = (idxs.foldl (sendDataStep pres) b).2.2
  | [], a, b, h1, h2, h3, h4 => ⟨h1, h2, h3, h4⟩
  | i :: is, a, b, h1, h2, h3, h4 => by
    simp only [List.foldl_cons]
    refine sendDataStep_fold_rel pres is (sendDataStep pres a i) (sendDataStep pres b i)
      ?_ ?_ ?_ ?_ <;>
    · unfold sendDataStep
      by_cases hbit : pres.testBit i
      · rw [if_pos hbit, if_pos hbit]
        rw [h2, h3]
        cases make_dev_data b.2.1.msg pres b.2.1.params with
        | none => simp [h1, h2, h3, h4]
        | some m1 => simp [h1, h2, h3, h4]
      · rw [if_neg hbit, if_neg hbit]
        simp [h1, h2, h3, h4]

theorem send_data_subscription (cap : Capability) (st : DevState) (sub2 p : Nat) :
    (send_data cap { st with subscription := sub2 } p).1 = (send_data cap st p).1 ∧
    (send_data cap { st with subscription := sub2 } p).2.2 = (send_data cap st p).2.2 := by
  unfold send_data
  dsimp only
  cases make_dev_data st.msg (cap.read p) st.params with
  | some m1 => exact ⟨rfl, rfl⟩
  | none =>
    have h := sendDataStep_fold_rel (cap.read p) (List.range Message.MAX_PARAMETERS)
      (true, { st with subscription := sub2 }, []) (true, st, []) rfl rfl rfl rfl
    exact ⟨h.1, h.2.2.2⟩

/-- C3 amended: `serve_once` applies no subscription masking — for a
DEV_READ (and a DEV_WRITE), the frames it sends are computed
independently of the stored subscription map, and for a successfully
parsed DEV_READ they are exactly the frames `send_data` produces for
the parsed present map itself (the immediate reply may therefore
duplicate parameters the subscription task already streams). -/
theorem c3_unmasked_reply (cap : Capability) (st : DevState) (sub2 : Nat)
    (h : st.msg.typ = DEV_READ ∨ st.msg.typ = DEV_WRITE) :
    (serveDispatch cap { st with subscription := sub2 }).2.1 = (serveDispatch cap st).2.1 ∧
    (st.msg.typ = DEV_READ → (read_dev_read st.msg Cells.zero).1 = true →
      (serveDispatch cap st).2.1
        = (if (send_data cap st (read_dev_read st.msg Cells.zero).2.pmap).1
           then (send_data cap st (read_dev_read st.msg Cells.zero).2.pmap).2.2
           else (send_data cap st (read_dev_read st.msg Cells.zero).2.pmap).2.2
             ++ [genericErrorBytes])) := by
  constructor
  · rcases h with h | h
    · unfold serveDispatch
      dsimp only
      rw [h]
      norm_num [SUB_REQ, PING, DEV_WRITE, DEV_READ]
      cases hr : read_dev_read st.msg Cells.zero with
      | mk ok c1 =>
        cases ok with
        | false => rfl
        | true =>
          dsimp only
          obtain ⟨h1, h2⟩ := send_data_subscription cap st sub2 c1.pmap
          rw [h1, h2]
          cases (send_data cap st c1.pmap).1 <;> rfl
    · unfold serveDispatch
      dsimp only
      rw [h]
      norm_num [SUB_REQ, PING, DEV_WRITE, DEV_READ]
      cases hr : read_dev_write st.msg Cells.zero st.params with
      | mk ok rest =>
        cases ok with
        | false => rfl
        | true =>
          dsimp only
          obtain ⟨h1, h2⟩ := send_data_subscription cap { st with params := rest.2 } sub2
            (cap.write rest.1.pmap)
          rw [h1, h2]
          cases (send_data cap { st with params := rest.2 } (cap.write rest.1.pmap)).1 <;> rfl
  · intro ht hok
    unfold serveDispatch
    rw [ht]
    norm_num [SUB_REQ, PING, DEV_WRITE, DEV_READ]
    cases hr : read_dev_read st.msg Cells.zero with
    | mk ok c1 =>
      rw [hr] at hok
      cases ok with
      | false => cases hok
      | true =>
        dsimp only
        cases (send_data cap st c1.pmap).1 <;> rfl

/-- C3 amended witness: zeroing the subscription of the concrete
subscribed state `ExStR` does not change the DEV_READ reply frames. -/
theorem c3_unmasked_reply_witness :
    (ExStR.msg.typ = DEV_READ ∨ ExStR.msg.typ = DEV_WRITE) ∧
    (serveDispatch ExCapR { ExStR with subscription := 0 }).2.1
      = (serveDispatch ExCapR ExStR).2.1 :=
  ⟨Or.inl (by decide), (c3_unmasked_reply ExCapR ExStR 0 (Or.inl (by decide))).1⟩

end SmartDev
